import Mathlib

/-!
# Verification of the geMIDI real-time sequencing core

Shallow embedding of the pattern-sequencing / transport engine of the geMIDI
application (the `App` component and `geminiService`), together with proofs of
the documented scheduling, switching, clocking and parsing properties.

Conventions of the embedding:
* JavaScript numbers holding beat times, durations, CC depths/offsets are
  modelled as rationals (`ℚ`); MIDI pitches, velocities, history indices and
  bar counts are integers (`Int`), step counters are `Nat`.
* `Math.round` is `jsRound` (floor of `x + 1/2`, which is exactly JS rounding
  for finite inputs); `Math.max(0, Math.min(127, ·))` is `clampMidi`.
* JS `Map`s are association lists with `mapGet` / `mapSet` / `mapDelete`
  mirroring `get` / `set` / `delete` (insertion order preserved).
-/

namespace GeMidi

/-- `DEFAULT_BARS` from `constants.ts` (`export const DEFAULT_BARS = 4`). -/
def DEFAULT_BARS : Int := 4

/-- A stored MIDI note (`MidiNote` in `types.ts`): pitch and velocity are
integer MIDI values, `time` (start, in beats) and `duration` (beats) are
JS numbers, modelled as rationals. -/
structure MidiNote where
  note : Int
  velocity : Int
  time : ℚ
  duration : ℚ
deriving DecidableEq

/-- `PatternHistoryEntry` from `types.ts`: a possibly-null pattern, a bar
count (a JS number; the scheduler falls back to `DEFAULT_BARS` when it is not
positive) and the generating prompt. -/
structure PatternHistoryEntry where
  pattern : Option (List MidiNote)
  bars : Int
  prompt : String
deriving DecidableEq

/-- One CC automation event (`CcAutomationEvent` in `types.ts`). -/
structure CcAutomationEvent where
  time : ℚ
  value : ℚ
deriving DecidableEq

/-- One CC automation lane (`CcAutomationData` in `types.ts`); `depth` and
`offset` are optional, the scheduler defaults them to `1` and `0`
(`ccData.depth ?? 1`, `ccData.offset ?? 0`). -/
structure CcAutomationData where
  cc : Nat
  events : List CcAutomationEvent
  depth : Option ℚ
  offset : Option ℚ
  bars : Nat
deriving DecidableEq

/-- `TrackType` from `types.ts`. -/
inductive TrackType where
  | drum
  | synth
deriving DecidableEq

/-- The scheduling-relevant fields of `Track` from `types.ts`. -/
structure Track where
  id : String
  type : TrackType
  channel : Nat
  patternHistory : List PatternHistoryEntry
  currentPatternIndex : Int
  isMuted : Bool
  isProgressionChaining : Bool
  octaveShift : Option Int
  ccAutomationData : List (Option CcAutomationData)
  isLoading : Bool
  error : Option String
deriving DecidableEq

/-- In-flight unsaved edit of a pattern (`liveEditingPatternRef` entries:
`{ pattern: MidiNote[], bars: number }`). -/
structure LiveEditData where
  pattern : List MidiNote
  bars : Int
deriving DecidableEq

/-! ## Association-list model of JS `Map` -/

/-- `Map.get`: value of the first entry with the given key. -/
def mapGet {α : Type} : List (String × α) → String → Option α
  | [], _ => none
  | (k', v) :: rest, k => if k' = k then some v else mapGet rest k

/-- `Map.set`: replace in place, or append a new entry (JS `Map`s keep
insertion order and `set` on an existing key updates in place). -/
def mapSet {α : Type} : List (String × α) → String → α → List (String × α)
  | [], k, v => [(k, v)]
  | (k', v') :: rest, k, v =>
    if k' = k then (k, v) :: rest else (k', v') :: mapSet rest k v

/-- `Map.delete`: remove every entry with the given key (maps built with
`mapSet` hold it at most once). -/
def mapDelete {α : Type} : List (String × α) → String → List (String × α)
  | [], _ => []
  | (k', v') :: rest, k =>
    if k' = k then mapDelete rest k else (k', v') :: mapDelete rest k

/-- JS array indexing `arr[i]` with a possibly signed index: out-of-range or
negative indices give `undefined`. -/
def listGetInt {α : Type} (l : List α) (i : Int) : Option α :=
  if 0 ≤ i then l[i.toNat]? else none

/-! ## Numeric helpers -/

/-- `Math.round` for finite JS numbers: round half toward positive infinity. -/
def jsRound (q : ℚ) : Int := Int.floor (q + 1/2)

/-- `Math.max(0, Math.min(127, n))`. -/
def clampMidi (n : Int) : Int := max 0 (min 127 n)

/-- `Math.floor(q * 4)`: a beat position or duration converted to whole
16th-note steps. -/
def beatSteps (q : ℚ) : Int := Int.floor (q * 4)

/-! ## Pattern resolution (`processMidiStep`, src/unnamed/part_002 lines 281-320) -/

/-- Effective bar count of a history entry: `p.bars > 0 ? p.bars : DEFAULT_BARS`. -/
def effBars (b : Int) : Int := if 0 < b then b else DEFAULT_BARS

/-- Length in 16th-note steps of one history entry (`entry.bars * 16` after
the `DEFAULT_BARS` fallback). -/
def entrySteps (e : PatternHistoryEntry) : Nat := (effBars e.bars).toNat * 16

/-- `totalProgressionSteps`: sum of the step lengths of every history entry. -/
def totalProgressionSteps (hist : List PatternHistoryEntry) : Nat :=
  (hist.map entrySteps).sum

/-- The progression-chaining walk: scan the history accumulating step counts
until the entry containing the global-local step is reached; return its
pattern and the step offset inside it. -/
def resolveChain : List PatternHistoryEntry → Nat → Option (List MidiNote) × Nat
  | [], _ => (none, 0)
  | e :: rest, g =>
    if g < entrySteps e then (e.pattern, g) else resolveChain rest (g - entrySteps e)

/-- The live-edit override consulted by the scheduler: the entry of
`liveEditingPatternRef` for this track, guarded by
`fullscreenTrackId === track.id` as in the source. -/
def liveEditFor (liveMap : List (String × LiveEditData)) (fullscreenTrackId : Option String)
    (t : Track) : Option LiveEditData :=
  match mapGet liveMap t.id with
  | some le => if fullscreenTrackId = some t.id then some le else none
  | none => none

/-- Per-track pattern resolution for one absolute step, in the priority order
of `processMidiStep`: live-edit override, then progression chaining, then
`patternHistory[currentPatternIndex]`.  Returns the resolved pattern (or
`none`) and the track-local step. -/
def resolveForStep (liveMap : List (String × LiveEditData)) (fullscreenTrackId : Option String)
    (t : Track) (currentAbsoluteStep : Nat) : Option (List MidiNote) × Nat :=
  match liveEditFor liveMap fullscreenTrackId t with
  | some liveEditData =>
    let trackTotalSteps : Int := liveEditData.bars * 16
    (some liveEditData.pattern,
     if 0 < trackTotalSteps then currentAbsoluteStep % trackTotalSteps.toNat else 0)
  | none =>
    if t.isProgressionChaining then
      let total := totalProgressionSteps t.patternHistory
      if 0 < total then resolveChain t.patternHistory (currentAbsoluteStep % total)
      else (none, 0)
    else
      match listGetInt t.patternHistory t.currentPatternIndex with
      | some historyEntry =>
        let trackTotalSteps := entrySteps historyEntry
        (historyEntry.pattern,
         if 0 < trackTotalSteps then currentAbsoluteStep % trackTotalSteps else 0)
      | none => (none, 0)

/-! ## MIDI output step processing (`processMidiStep`, lines 266-361) -/

/-- Outgoing 3-byte MIDI channel messages: `[0x90+ch-1, note, vel]`,
`[0x80+ch-1, note, 0]`, `[0xB0+ch-1, cc, value]`. -/
inductive MidiMsg where
  | noteOn (channel : Nat) (note : Int) (velocity : Int)
  | noteOff (channel : Nat) (note : Int)
  | cc (channel : Nat) (controller : Nat) (value : Int)
deriving DecidableEq

/-- Is this message a note-off? -/
def MidiMsg.isNoteOff : MidiMsg → Bool
  | .noteOff _ _ => true
  | _ => false

/-- Is this message a note-on? -/
def MidiMsg.isNoteOn : MidiMsg → Bool
  | .noteOn _ _ _ => true
  | _ => false

/-- `ActiveMidiNote`: bookkeeping entry for a sounding note. -/
structure ActiveMidiNote where
  note : Int
  absoluteOffStep : Int
  channel : Nat
deriving DecidableEq

/-- `activePlayingNotesRef`: map from track id to its set of sounding notes
(modelled as a list in insertion order). -/
abbrev ActiveNotesMap := List (String × List ActiveMidiNote)

/-- Note-off messages sent by the release pass for one track's sounding set:
one `0x80` message per note whose `absoluteOffStep` equals the current step. -/
def releaseMsgsFor (notes : List ActiveMidiNote) (step : Nat) : List MidiMsg :=
  (notes.filter (fun n => n.absoluteOffStep == (step : Int))).map
    (fun n => MidiMsg.noteOff n.channel n.note)

/-- The release pass of `processMidiStep`: every sounding note whose off-step
is the current step is sent a note-off and removed from the sounding set. -/
def releasePhase (active : ActiveNotesMap) (step : Nat) : List MidiMsg × ActiveNotesMap :=
  ((active.map (fun p => releaseMsgsFor p.2 step)).flatten,
   active.map (fun p => (p.1, p.2.filter (fun n => !(n.absoluteOffStep == (step : Int))))))

/-- Final pitch at trigger time: octave shift applied for synth tracks with a
numeric `octaveShift`, then clamped to `[0,127]`. -/
def finalPitch (t : Track) (rawPitch : Int) : Int :=
  clampMidi
    (match t.type, t.octaveShift with
     | TrackType.synth, some s => rawPitch + s * 12
     | _, _ => rawPitch)

/-- Note-on messages and new sounding-set entries for one track at one step:
a note starts when `Math.floor(note.time * 4)` equals the track-local step;
its off-step is `currentAbsoluteStep + Math.floor(note.duration * 4)`. -/
def noteTriggersForTrack (t : Track) (pattern : List MidiNote) (localStep : Nat) (step : Nat) :
    List MidiMsg × List ActiveMidiNote :=
  let starting := pattern.filter (fun n => beatSteps n.time == (localStep : Int))
  (starting.map (fun n => MidiMsg.noteOn t.channel (finalPitch t n.note) n.velocity),
   starting.map (fun n =>
     { note := finalPitch t n.note
       absoluteOffStep := (step : Int) + beatSteps n.duration
       channel := t.channel }))

/-- The CC value transformation of `processMidiStep` (lines 349-356): scale
the deviation from the MIDI midpoint by `depth`, add `offset`, round, clamp. -/
def ccTransform (value depth offset : ℚ) : Int :=
  let midpoint : ℚ := 63.5
  let v1 := midpoint + (value - midpoint) * depth
  let v2 := v1 + offset
  max 0 (min 127 (jsRound v2))

/-- CC messages of one automation lane at one step: the lane loops on its own
`bars * 16` length; an event fires when `Math.floor(event.time * 4)` equals
the lane-local step. -/
def ccMsgsForData (channel : Nat) (d : CcAutomationData) (step : Nat) : List MidiMsg :=
  let automationTotalSteps := d.bars * 16
  let currentAutomationLocalStep :=
    if 0 < automationTotalSteps then step % automationTotalSteps else 0
  (d.events.filter (fun e => beatSteps e.time == (currentAutomationLocalStep : Int))).map
    (fun e => MidiMsg.cc channel d.cc (ccTransform e.value (d.depth.getD 1) (d.offset.getD 0)))

/-- CC messages of one track at one step (synth tracks only, over all lanes). -/
def ccMsgsForTrack (t : Track) (step : Nat) : List MidiMsg :=
  if t.type = TrackType.synth then
    (t.ccAutomationData.map (fun lane =>
      match lane with
      | some d => ccMsgsForData t.channel d step
      | none => [])).flatten
  else []

/-- Messages and new sounding-set entries contributed by one track in the
trigger pass: nothing when no pattern resolves; otherwise the note-ons of the
notes starting at the local step followed by the CC messages. -/
def trackStepOutput (liveMap : List (String × LiveEditData)) (fullscreenTrackId : Option String)
    (t : Track) (step : Nat) : List MidiMsg × List ActiveMidiNote :=
  match resolveForStep liveMap fullscreenTrackId t step with
  | (none, _) => ([], [])
  | (some pattern, localStep) =>
    let out := noteTriggersForTrack t pattern localStep step
    (out.1 ++ ccMsgsForTrack t step, out.2)

/-- Add a track's newly triggered notes to the sounding map, creating the
track's (possibly empty) entry exactly as the source get-or-create does. -/
def addActiveNotes (active : ActiveNotesMap) (trackId : String) (notes : List ActiveMidiNote) :
    ActiveNotesMap :=
  match mapGet active trackId with
  | some _ => active.map (fun p => if p.1 = trackId then (p.1, p.2 ++ notes) else p)
  | none => active ++ [(trackId, notes)]

/-- One iteration of the trigger pass of `processMidiStep` over one track:
muted tracks and tracks with no resolvable pattern contribute nothing. -/
def trackStepFold (liveMap : List (String × LiveEditData)) (fullscreenTrackId : Option String)
    (step : Nat) (acc : List MidiMsg × ActiveNotesMap) (t : Track) :
    List MidiMsg × ActiveNotesMap :=
  if t.isMuted then acc
  else
    match (resolveForStep liveMap fullscreenTrackId t step).1 with
    | none => acc
    | some _ =>
      let out := trackStepOutput liveMap fullscreenTrackId t step
      (acc.1 ++ out.1, addActiveNotes acc.2 t.id out.2)

/-- `processMidiStep`: the release pass over the sounding map, then the
trigger pass over all tracks.  Returns the outgoing messages, in send order,
and the updated sounding map. -/
def processMidiStep (liveMap : List (String × LiveEditData)) (fullscreenTrackId : Option String)
    (tracks : List Track) (active : ActiveNotesMap) (step : Nat) :
    List MidiMsg × ActiveNotesMap :=
  let rel := releasePhase active step
  let trig := tracks.foldl (trackStepFold liveMap fullscreenTrackId step) ([], rel.2)
  (rel.1 ++ trig.1, trig.2)

/-! ## Transport engine state (MIDI backend) -/

/-- `tracks.some(t => t.isProgressionChaining)`. -/
def anyTrackChaining (tracks : List Track) : Bool :=
  tracks.any (fun t => t.isProgressionChaining)

/-- The mutable state of the MIDI-backend transport that the claims are
about: the track list, the pending deferred-switch map
(`pendingPatternHistorySwitchRef`, a `Map | null`), the playing and
external-clock flags, the module-level `clockTickCounter`, the absolute step
counter and the sounding-notes map. -/
structure EngineState where
  tracks : List Track
  pending : Option (List (String × Int))
  isPlaying : Bool
  isExternalClock : Bool
  clockTickCounter : Nat
  absoluteStep : Nat
  activeNotes : ActiveNotesMap
deriving DecidableEq

/-- `handleSwitchPatternHistory` (lines 1018-1026): while playing and no
track chains, record the request in the pending map; otherwise apply it to
the track immediately (when the index is in range) and drop any pending
request for that track. -/
def handleSwitchPatternHistory (s : EngineState) (trackId : String) (newIndex : Int) :
    EngineState :=
  if s.isPlaying && !anyTrackChaining s.tracks then
    { s with pending := some (mapSet (s.pending.getD []) trackId newIndex) }
  else
    { s with
      tracks := s.tracks.map (fun t =>
        if t.id = trackId ∧ 0 ≤ newIndex ∧ newIndex < t.patternHistory.length then
          { t with currentPatternIndex := newIndex, error := none }
        else t)
      pending :=
        match s.pending with
        | none => none
        | some m =>
          let m' := mapDelete m trackId
          if m'.isEmpty then none else some m' }

/-- Per-track contribution to the shared loop length (body of the
`tracksRef.current.map` inside the scheduler, lines 646-654): chaining tracks
are excluded, a live-edited track contributes its live bars, otherwise the
current history entry contributes `bars * 16` when it has a pattern, else 0. -/
def trackLoopLen (liveMap : List (String × LiveEditData)) (fullscreenTrackId : Option String)
    (t : Track) : Int :=
  if t.isProgressionChaining then 0
  else
    match liveEditFor liveMap fullscreenTrackId t with
    | some livePatternData => livePatternData.bars * 16
    | none =>
      match listGetInt t.patternHistory t.currentPatternIndex with
      | some currentEntry =>
        if currentEntry.pattern.isSome then effBars currentEntry.bars * 16 else 0
      | none => 0

/-- `loopEndStep`: `Math.max(16, ...tracks.map(trackLoopLen))`, the shared
loop length used for deferred-switch boundary detection. -/
def loopEndStep (liveMap : List (String × LiveEditData)) (fullscreenTrackId : Option String)
    (tracks : List Track) : Int :=
  (tracks.map (trackLoopLen liveMap fullscreenTrackId)).foldl max 16

/-- Apply every pending switch whose index is in range
(`setTracks` body inside the boundary branch). -/
def applyPendingSwitches (tracks : List Track) (switches : List (String × Int)) : List Track :=
  tracks.map (fun t =>
    match mapGet switches t.id with
    | some newIndexForTrack =>
      if 0 ≤ newIndexForTrack ∧ newIndexForTrack < t.patternHistory.length then
        { t with currentPatternIndex := newIndexForTrack, error := none }
      else t
    | none => t)

/-- Ids of the tracks whose switch is actually applied (their channels are
reset and their sounding-note entries dropped). -/
def switchedTrackIds (tracks : List Track) (switches : List (String × Int)) : List String :=
  (tracks.filter (fun t =>
    match mapGet switches t.id with
    | some i => decide (0 ≤ i ∧ i < t.patternHistory.length)
    | none => false)).map Track.id

/-- The deferred-switch boundary logic run right after a step has been
processed (lines 645-670 for the internal clock, 399-421 for the external
clock): when no track chains, the just-processed step is the last step of the
shared loop, and the pending map is non-empty, apply all pending switches,
replace the pending map by a fresh empty one, and drop the sounding-note
entries of the switched tracks. -/
def applyPendingAtBoundary (liveMap : List (String × LiveEditData))
    (fullscreenTrackId : Option String) (s : EngineState) (processedStep : Nat) : EngineState :=
  if anyTrackChaining s.tracks then s
  else
    let L := loopEndStep liveMap fullscreenTrackId s.tracks
    let currentLoopStep : Int :=
      if 0 < L then (processedStep : Int) % L else (processedStep : Int)
    match s.pending with
    | some m =>
      if 0 < L ∧ currentLoopStep = L - 1 ∧ m.isEmpty = false then
        { s with
          tracks := applyPendingSwitches s.tracks m
          pending := some []
          activeNotes :=
            s.activeNotes.filter (fun p => !(switchedTrackIds s.tracks m).contains p.1) }
      else s
    | none => s

/-- One emitted scheduler step: process the current absolute step, advance
the counter, then run the deferred-switch boundary logic with the
just-processed step (both clock paths do exactly this). -/
def schedulerStep (liveMap : List (String × LiveEditData)) (fullscreenTrackId : Option String)
    (s : EngineState) : EngineState :=
  let stepNow := s.absoluteStep
  let pm := processMidiStep liveMap fullscreenTrackId s.tracks s.activeNotes stepNow
  applyPendingAtBoundary liveMap fullscreenTrackId
    { s with activeNotes := pm.2, absoluteStep := stepNow + 1 } stepNow

/-! ## External MIDI clock handling (`handleMidiMessage`, lines 366-431) -/

/-- The system real-time messages consumed by the clock:
`0xF8` clock, `0xFA` start, `0xFB` continue, `0xFC` stop. -/
inductive MidiInMsg where
  | clockPulse
  | startMsg
  | continueMsg
  | stopMsg
deriving DecidableEq

/-- `0xF8`: increment the module-level tick counter; on every 6th pulse
(`PPQN / 4 = 24 / 4 = 6`) and while playing, emit exactly one step.  Returns
the new state and the list of absolute steps emitted. -/
def onClockPulse (liveMap : List (String × LiveEditData)) (fullscreenTrackId : Option String)
    (s : EngineState) : EngineState × List Nat :=
  let s0 := { s with isExternalClock := true, clockTickCounter := s.clockTickCounter + 1 }
  if s0.clockTickCounter % 6 = 0 then
    if s0.isPlaying then (schedulerStep liveMap fullscreenTrackId s0, [s0.absoluteStep])
    else (s0, [])
  else (s0, [])

/-- `0xFA` start: reset the absolute step and tick counter, flush all
sounding notes (`sendAllNotesOff` clears the sounding map), begin playback,
and immediately process step 0 (the counter then stands at 1). -/
def onStart (liveMap : List (String × LiveEditData)) (fullscreenTrackId : Option String)
    (s : EngineState) : EngineState × List Nat :=
  let s0 := { s with
    isExternalClock := true
    absoluteStep := 0
    clockTickCounter := 0
    activeNotes := []
    isPlaying := true }
  let pm := processMidiStep liveMap fullscreenTrackId s0.tracks s0.activeNotes 0
  ({ s0 with activeNotes := pm.2, absoluteStep := 1 }, [0])

/-- `0xFB` continue: resume playback; nothing else changes (no reset, no
flush, no step emitted). -/
def onContinue (s : EngineState) : EngineState × List Nat :=
  ({ s with isExternalClock := true, isPlaying := true }, [])

/-- `0xFC` stop: leave external clock mode, halt playback, flush all sounding
notes, reset the tick counter and drop the pending-switch map. -/
def onStop (s : EngineState) : EngineState × List Nat :=
  ({ s with
      isExternalClock := false
      isPlaying := false
      activeNotes := []
      clockTickCounter := 0
      pending := none }, [])

/-- `handleMidiMessage` restricted to the system real-time messages (MIDI
output mode, an input device selected). -/
def handleMidiMessage (liveMap : List (String × LiveEditData))
    (fullscreenTrackId : Option String) (s : EngineState) :
    MidiInMsg → EngineState × List Nat
  | .clockPulse => onClockPulse liveMap fullscreenTrackId s
  | .startMsg => onStart liveMap fullscreenTrackId s
  | .continueMsg => onContinue s
  | .stopMsg => onStop s

/-! ## AI response parsing (`geminiService.ts`, lines 40-90) -/

/-- A JSON number as JavaScript sees it: a finite value, or `NaN` / `±∞`
(which fail the `isFinite` checks). -/
inductive JsonNum where
  | num (q : ℚ)
  | nonFinite
deriving DecidableEq

/-- The four fields of a raw note element of the AI response; `none` means
the field is missing or not a number. -/
structure RawNoteFields where
  note : Option JsonNum
  velocity : Option JsonNum
  time : Option JsonNum
  duration : Option JsonNum
deriving DecidableEq

/-- One element of the parsed JSON array: a note-shaped object, or any
non-object value (`null`, number, string, ...). -/
inductive RawElem where
  | obj (e : RawNoteFields)
  | nonObject
deriving DecidableEq

/-- The outcome of `JSON.parse` on the cleaned response text: an array of
elements, or anything else (non-array JSON or a parse failure), which makes
the parser throw. -/
inductive GeminiJson where
  | arr (elems : List RawElem)
  | notArray
deriving DecidableEq

/-- The element filter of `parseGeminiResponse`: all four fields must be
finite numbers, pitch and velocity in `[0,127]`, time non-negative, duration
positive. -/
def validNote : RawElem → Bool
  | .obj e =>
    (match e.note with
     | some (.num n) => decide (0 ≤ n ∧ n ≤ 127)
     | _ => false) &&
    (match e.velocity with
     | some (.num v) => decide (0 ≤ v ∧ v ≤ 127)
     | _ => false) &&
    (match e.time with
     | some (.num t) => decide (0 ≤ t)
     | _ => false) &&
    (match e.duration with
     | some (.num d) => decide (0 < d)
     | _ => false)
  | .nonObject => false

/-- Numeric value of a field, `0` when absent (only applied after the
validity filter, which guarantees presence). -/
def numOr0 : Option JsonNum → ℚ
  | some (.num q) => q
  | _ => 0

/-- The normalisation map of `parseGeminiResponse`: round pitch and velocity,
quantise the start time to the nearest 16th (`Math.round(p.time * 4) / 4`),
keep the duration exactly. -/
def toMidiNote : RawElem → MidiNote
  | .obj e =>
    { note := jsRound (numOr0 e.note)
      velocity := jsRound (numOr0 e.velocity)
      time := (jsRound (numOr0 e.time * 4) : ℚ) / 4
      duration := numOr0 e.duration }
  | .nonObject => { note := 0, velocity := 0, time := 0, duration := 0 }

/-- `parseGeminiResponse`: on an array, silently drop invalid elements and
normalise the valid ones; on anything else, throw a typed error. -/
def parseGeminiResponse : GeminiJson → Except String (List MidiNote)
  | .arr parsed => .ok (((parsed.filter validNote).map toMidiNote))
  | .notArray => .error "Failed to parse AI response. Expected JSON array of MIDI notes."

/-- One element of a parsed CC automation response. -/
structure RawCcFields where
  time : Option JsonNum
  value : Option JsonNum
deriving DecidableEq

/-- One element of the parsed CC JSON array. -/
inductive RawCcElem where
  | obj (e : RawCcFields)
  | nonObject
deriving DecidableEq

/-- The outcome of `JSON.parse` for a CC automation response. -/
inductive CcJson where
  | arr (elems : List RawCcElem)
  | notArray
deriving DecidableEq

/-- The element filter of `parseCcAutomationResponse`: finite time `≥ 0` and
finite value in `[0,127]`. -/
def validCcEvent : RawCcElem → Bool
  | .obj e =>
    (match e.time with
     | some (.num t) => decide (0 ≤ t)
     | _ => false) &&
    (match e.value with
     | some (.num v) => decide (0 ≤ v ∧ v ≤ 127)
     | _ => false)
  | .nonObject => false

/-- Numeric value of a CC field, `0` when absent. -/
def ccNumOr0 : Option JsonNum → ℚ
  | some (.num q) => q
  | _ => 0

/-- The normalisation map of `parseCcAutomationResponse`: quantise the time to
the nearest 16th, round the value to an integer. -/
def toCcEvent : RawCcElem → CcAutomationEvent
  | .obj e =>
    { time := (jsRound (ccNumOr0 e.time * 4) : ℚ) / 4
      value := (jsRound (ccNumOr0 e.value) : ℚ) }
  | .nonObject => { time := 0, value := 0 }

/-- `parseCcAutomationResponse`: filter invalid events, normalise the rest;
throw a typed error on a non-array. -/
def parseCcAutomationResponse : CcJson → Except String (List CcAutomationEvent)
  | .arr parsed => .ok ((parsed.filter validCcEvent).map toCcEvent)
  | .notArray =>
    .error "Failed to parse AI response for CC automation. Expected JSON array of CC events."

/-- The `catch` branch of `handleGeneratePattern` (lines 762-766): on a
generation failure, clear the track's loading flag and attach the error
message; nothing else about the track changes. -/
def applyGenerationFailure (tracks : List Track) (trackId : String) (errorMessage : String) :
    List Track :=
  tracks.map (fun t =>
    if t.id = trackId then { t with isLoading := false, error := some errorMessage } else t)

/-- Spec-side definition (§4.2 of the specification, loop-boundary detection):
"effectiveLoopLength is the maximum active-pattern length across all
non-chaining tracks" — the bare maximum of the per-track lengths, with no
16-step floor. -/
def specMaxActivePatternLen (liveMap : List (String × LiveEditData))
    (fullscreenTrackId : Option String) (tracks : List Track) : Int :=
  (tracks.map (trackLoopLen liveMap fullscreenTrackId)).foldl max 0

/-- Prefix sums of the per-entry step lengths of a pattern history:
the number of steps accumulated before entry `i` in the chaining walk. -/
def prefixSteps (hist : List PatternHistoryEntry) (i : Nat) : Nat :=
  ((hist.take i).map entrySteps).sum

/-! ## Concrete fixtures (used to instantiate the theorems) -/

/-- A one-bar pattern entry with a single note at beat 0. -/
def sampleEntry : PatternHistoryEntry := ⟨some [⟨60, 100, 0, 1⟩], 1, "p"⟩

/-- A two-bar pattern entry with a single note at beat 0. -/
def sampleEntryB : PatternHistoryEntry := ⟨some [⟨62, 101, 0, 1⟩], 2, "q"⟩

/-- A non-chaining synth track with two history entries and octave shift +1. -/
def sampleTrack : Track :=
  ⟨"t1", TrackType.synth, 1, [sampleEntry, sampleEntryB], 0, false, false, some 1, [], false, none⟩

/-- A fresh drum track with an empty pattern history (the initial app state). -/
def emptyTrack : Track :=
  ⟨"t0", TrackType.drum, 10, [], 0, false, false, none, [], false, none⟩

/-- A chaining variant of `sampleTrack`. -/
def chainTrack : Track :=
  ⟨"tc", TrackType.synth, 2, [sampleEntry, sampleEntryB], 0, false, true, some 0, [], false, none⟩

/-- A playing engine state over `sampleTrack`. -/
def sampleEngine : EngineState := ⟨[sampleTrack], none, true, false, 0, 0, []⟩

/-! ## Helper lemmas -/

theorem le_foldl_max (l : List Int) : ∀ a : Int, a ≤ l.foldl max a := by
  induction l with
  | nil => intro a; simp
  | cons x xs ih =>
    intro a
    simp only [List.foldl_cons]
    exact le_trans (le_max_left a x) (ih (max a x))

theorem foldl_max_max (l : List Int) : ∀ a b : Int, l.foldl max (max a b) = max a (l.foldl max b) := by
  induction l with
  | nil => intro a b; simp
  | cons x xs ih =>
    intro a b
    simp only [List.foldl_cons, max_assoc]
    exact ih a (max b x)

theorem loopEndStep_pos (liveMap : List (String × LiveEditData))
    (fullscreenTrackId : Option String) (tracks : List Track) :
    (16 : Int) ≤ loopEndStep liveMap fullscreenTrackId tracks :=
  le_foldl_max _ 16

theorem mapGet_mem {α : Type} {m : List (String × α)} {k : String} {v : α}
    (h : mapGet m k = some v) : (k, v) ∈ m := by
  induction m with
  | nil => simp [mapGet] at h
  | cons p rest ih =>
    rw [mapGet] at h
    split at h
    · rename_i heq
      obtain ⟨rfl⟩ := Option.some.injEq _ _ ▸ h
      have hp : (k, p.2) = p := by
        obtain ⟨p1, p2⟩ := p
        simp only at heq
        rw [heq]
      rw [hp]
      exact List.mem_cons_self _ _
    · simp [ih h]

theorem mapGet_mapSet_self {α : Type} (m : List (String × α)) (k : String) (v : α) :
    mapGet (mapSet m k v) k = some v := by
  induction m with
  | nil => simp [mapSet, mapGet]
  | cons p rest ih =>
    by_cases h : p.1 = k
    · simp [mapSet, h, mapGet]
    · simp [mapSet, h, mapGet, ih]

theorem prefixSteps_zero (hist : List PatternHistoryEntry) : prefixSteps hist 0 = 0 := rfl

theorem prefixSteps_cons_succ (e : PatternHistoryEntry) (rest : List PatternHistoryEntry)
    (i : Nat) : prefixSteps (e :: rest) (i + 1) = entrySteps e + prefixSteps rest i := by
  simp [prefixSteps]

theorem entrySteps_of_pos {e : PatternHistoryEntry} (h : 0 < e.bars) :
    entrySteps e = e.bars.toNat * 16 := by
  simp [entrySteps, effBars, h]

theorem resolveChain_at (hist : List PatternHistoryEntry) :
    ∀ (i g : Nat) (e : PatternHistoryEntry), hist[i]? = some e →
      prefixSteps hist i ≤ g → g < prefixSteps hist (i + 1) →
      resolveChain hist g = (e.pattern, g - prefixSteps hist i) := by
  induction hist with
  | nil => intro i g e he; simp at he
  | cons e0 rest ih =>
    intro i g e he h1 h2
    cases i with
    | zero =>
      rw [List.getElem?_cons_zero] at he
      obtain rfl : e0 = e := by injection he
      have h2' : g < entrySteps e0 := by
        rw [prefixSteps_cons_succ, prefixSteps_zero] at h2
        omega
      simp [resolveChain, h2', prefixSteps_zero]
    | succ j =>
      rw [List.getElem?_cons_succ] at he
      rw [prefixSteps_cons_succ] at h1
      rw [prefixSteps_cons_succ] at h2
      have hge : ¬ g < entrySteps e0 := by omega
      rw [resolveChain, if_neg hge, ih j (g - entrySteps e0) e he (by omega) (by omega)]
      rw [prefixSteps_cons_succ]
      exact congrArg _ (by omega)

theorem chain_entry_exists (hist : List PatternHistoryEntry) :
    ∀ g : Nat, g < totalProgressionSteps hist →
      ∃ (i : Nat) (e : PatternHistoryEntry), hist[i]? = some e ∧
        prefixSteps hist i ≤ g ∧ g < prefixSteps hist (i + 1) := by
  induction hist with
  | nil => intro g hg; simp [totalProgressionSteps] at hg
  | cons e0 rest ih =>
    intro g hg
    by_cases h0 : g < entrySteps e0
    · exact ⟨0, e0, by simp, by simp [prefixSteps_zero],
        by rw [prefixSteps_cons_succ, prefixSteps_zero]; omega⟩
    · have hg' : g - entrySteps e0 < totalProgressionSteps rest := by
        simp only [totalProgressionSteps, List.map_cons, List.sum_cons] at hg
        simp only [totalProgressionSteps]
        omega
      obtain ⟨i, e, he, hle, hlt⟩ := ih (g - entrySteps e0) hg'
      exact ⟨i + 1, e, by simpa using he,
        by rw [prefixSteps_cons_succ]; omega,
        by rw [prefixSteps_cons_succ]; omega⟩

/-! ## Claim theorems -/

/-- C3: for every automation event with value in `[0,127]`, depth in `[0,1]`
and offset in `[-127,127]`, the CC value put into the emitted message equals
`clamp(0, 127, round(63.5 + (value - 63.5) * depth + offset))`; the output is
always an integer in `[0,127]`; and `transform(64,1,0) = 64`,
`transform(0,1,0) = 0`, `transform(127,0.5,0) = 95`. -/
theorem ccTransform_spec (value depth offset : ℚ)
    (hv : 0 ≤ value ∧ value ≤ 127) (hd : 0 ≤ depth ∧ depth ≤ 1)
    (ho : -127 ≤ offset ∧ offset ≤ 127) :
    ccTransform value depth offset =
      max 0 (min 127 (jsRound (63.5 + (value - 63.5) * depth + offset)))
    ∧ 0 ≤ ccTransform value depth offset
    ∧ ccTransform value depth offset ≤ 127
    ∧ (∀ (ch : Nat) (d : CcAutomationData) (step : Nat) (m : MidiMsg),
        m ∈ ccMsgsForData ch d step →
        ∃ e ∈ d.events,
          m = MidiMsg.cc ch d.cc (ccTransform e.value (d.depth.getD 1) (d.offset.getD 0)))
    ∧ ccTransform 64 1 0 = 64 ∧ ccTransform 0 1 0 = 0 ∧ ccTransform 127 (1/2) 0 = 95 := by
  refine ⟨rfl, le_max_left _ _, max_le (by norm_num) (min_le_left _ _), ?_,
    by norm_num [ccTransform, jsRound], by norm_num [ccTransform, jsRound],
    by norm_num [ccTransform, jsRound]⟩
  intro ch d step m hm
  unfold ccMsgsForData at hm
  simp only [List.mem_map, List.mem_filter] at hm
  obtain ⟨e, ⟨he, _⟩, rfl⟩ := hm
  exact ⟨e, he, rfl⟩

/-- Witness for C3 at value 127, depth 1/2, offset 0. -/
theorem ccTransform_spec_witness :
    ccTransform 127 (1/2) 0 =
      max 0 (min 127 (jsRound (63.5 + ((127 : ℚ) - 63.5) * (1/2) + 0))) :=
  (ccTransform_spec 127 (1/2) 0 (by norm_num) (by norm_num) (by norm_num)).1

/-- C7: invalid elements of an AI response are silently dropped while valid
elements are kept (never an error for an array); a response with 3 valid
notes and 1 invalid note yields exactly the 3 valid notes; a totally
malformed (non-array) response raises a typed error; and a generation
failure leaves every track's pattern history unchanged while attaching the
error message to the failing track and clearing its loading flag. -/
theorem parse_and_failure_spec :
    (∀ es : List RawElem, ∃ notes, parseGeminiResponse (.arr es) = .ok notes ∧
        notes.length = (es.filter validNote).length)
    ∧ parseGeminiResponse (.arr
        [RawElem.obj ⟨some (.num 60), some (.num 100), some (.num 0), some (.num (1/2))⟩,
         RawElem.obj ⟨some (.num 64), some (.num 90), some (.num 1), some (.num (1/4))⟩,
         RawElem.obj ⟨some (.num 200), some (.num 50), some (.num 0), some (.num 1)⟩,
         RawElem.obj ⟨some (.num 67), some (.num 80), some (.num 2), some (.num 1)⟩])
      = .ok [⟨60, 100, 0, 1/2⟩, ⟨64, 90, 1, 1/4⟩, ⟨67, 80, 2, 1⟩]
    ∧ (∃ msg, parseGeminiResponse .notArray = .error msg)
    ∧ (∀ (tracks : List Track) (trackId errMsg : String),
        (applyGenerationFailure tracks trackId errMsg).map Track.patternHistory
          = tracks.map Track.patternHistory
        ∧ ∀ (k : Nat) (t : Track), tracks[k]? = some t → t.id = trackId →
            (applyGenerationFailure tracks trackId errMsg)[k]?
              = some { t with isLoading := false, error := some errMsg }) := by
  refine ⟨fun es => ⟨_, rfl, by simp⟩, ?_, ⟨_, rfl⟩, ?_⟩
  · norm_num [parseGeminiResponse, validNote, toMidiNote, numOr0, jsRound]
  · intro tracks trackId errMsg
    constructor
    · rw [applyGenerationFailure, List.map_map]
      refine List.map_congr_left (fun t _ => ?_)
      by_cases h : t.id = trackId <;> simp [h]
    · intro k t hk htid
      rw [applyGenerationFailure, List.getElem?_map, hk]
      simp [htid]

/-- C10: every element of an AI pattern response that passes validation is
stored normalised: its start time is quantised to the nearest quarter beat
(`round(time * 4) / 4`), its pitch and velocity are rounded to the nearest
integer, and only its duration is kept exactly as returned; the CC
automation parser likewise quantises time and rounds the value. -/
theorem parse_normalization_spec (e : RawNoteFields) (n v t d : ℚ)
    (hn : e.note = some (.num n)) (hv : e.velocity = some (.num v))
    (ht : e.time = some (.num t)) (hd : e.duration = some (.num d))
    (hnr : 0 ≤ n ∧ n ≤ 127) (hvr : 0 ≤ v ∧ v ≤ 127) (htr : 0 ≤ t) (hdr : 0 < d) :
    parseGeminiResponse (.arr [.obj e]) =
      .ok [{ note := jsRound n, velocity := jsRound v,
             time := (jsRound (t * 4) : ℚ) / 4, duration := d }]
    ∧ (∀ (ce : RawCcFields) (ct cv : ℚ), ce.time = some (.num ct) →
        ce.value = some (.num cv) → 0 ≤ ct → 0 ≤ cv → cv ≤ 127 →
        parseCcAutomationResponse (.arr [.obj ce]) =
          .ok [{ time := (jsRound (ct * 4) : ℚ) / 4, value := (jsRound cv : ℚ) }]) := by
  constructor
  · simp [parseGeminiResponse, validNote, toMidiNote, numOr0, hn, hv, ht, hd,
      hnr.1, hnr.2, hvr.1, hvr.2, htr, hdr]
  · intro ce ct cv hct hcv h1 h2 h3
    simp [parseCcAutomationResponse, validCcEvent, toCcEvent, ccNumOr0, hct, hcv, h1, h2, h3]

/-- Witness for C10 at a concrete raw element (note 60.4, velocity 99.5,
time 1.1, duration 0.3). -/
theorem parse_normalization_spec_witness :
    parseGeminiResponse (.arr [.obj ⟨some (.num (302/5)), some (.num (199/2)),
        some (.num (11/10)), some (.num (3/10))⟩]) =
      .ok [{ note := jsRound (302/5), velocity := jsRound (199/2),
             time := (jsRound ((11/10) * 4) : ℚ) / 4, duration := (3/10 : ℚ) }] :=
  (parse_normalization_spec ⟨some (.num (302/5)), some (.num (199/2)), some (.num (11/10)),
      some (.num (3/10))⟩ (302/5) (199/2) (11/10) (3/10) rfl rfl rfl rfl
    (by norm_num) (by norm_num) (by norm_num) (by norm_num)).1

/-- Witness for C7: a failing generation on a concrete one-track list. -/
theorem parse_and_failure_spec_witness :
    (applyGenerationFailure [sampleTrack] "t1" "boom").map Track.patternHistory
      = [sampleTrack].map Track.patternHistory
    ∧ (applyGenerationFailure [sampleTrack] "t1" "boom")[0]?
      = some { sampleTrack with isLoading := false, error := some "boom" } :=
  ⟨(parse_and_failure_spec.2.2.2 [sampleTrack] "t1" "boom").1,
   (parse_and_failure_spec.2.2.2 [sampleTrack] "t1" "boom").2 0 sampleTrack rfl rfl⟩

/-- C1: per track and absolute step the scheduler resolves, in priority
order: (1) the live-edit override with local step `step mod (bars*16)`;
(2) else, for a chaining track, the chained resolution over the history;
(3) else `patternHistory[currentPatternIndex]` with local step
`step mod (bars*16)`; and a track for which no pattern resolves contributes
no messages and no sounding notes on this step. -/
theorem resolve_priority_spec (liveMap : List (String × LiveEditData))
    (fs : Option String) (t : Track) (step : Nat) :
    (∀ le : LiveEditData, liveEditFor liveMap fs t = some le → 0 < le.bars →
       resolveForStep liveMap fs t step = (some le.pattern, step % (le.bars.toNat * 16)))
    ∧ (liveEditFor liveMap fs t = none → t.isProgressionChaining = true →
        0 < totalProgressionSteps t.patternHistory →
        resolveForStep liveMap fs t step
          = resolveChain t.patternHistory (step % totalProgressionSteps t.patternHistory))
    ∧ (∀ e : PatternHistoryEntry, liveEditFor liveMap fs t = none →
        t.isProgressionChaining = false →
        listGetInt t.patternHistory t.currentPatternIndex = some e → 0 < e.bars →
        resolveForStep liveMap fs t step = (e.pattern, step % (e.bars.toNat * 16)))
    ∧ ((resolveForStep liveMap fs t step).1 = none →
        trackStepOutput liveMap fs t step = ([], [])
        ∧ ∀ acc, trackStepFold liveMap fs step acc t = acc) := by
  refine ⟨?_, ?_, ?_, ?_⟩
  · intro le hle hb
    have h1 : (0 : Int) < le.bars * 16 := by omega
    have h2 : (le.bars * 16).toNat = le.bars.toNat * 16 := by omega
    simp [resolveForStep, hle, h1, h2]
  · intro hle hchain htot
    simp [resolveForStep, hle, hchain, htot]
  · intro e hle hchain hget hb
    have he : entrySteps e = e.bars.toNat * 16 := entrySteps_of_pos hb
    have hpos : 0 < entrySteps e := by rw [he]; omega
    simp [resolveForStep, hle, hchain, hget, he, hpos]
    intro hcontra
    exact absurd hb (by omega)
  · intro h
    have heq : resolveForStep liveMap fs t step = (none, (resolveForStep liveMap fs t step).2) := by
      rw [← h]
    constructor
    · rw [trackStepOutput, heq]
    · intro acc
      rw [trackStepFold, h]
      simp

/-- Witness for C1: `sampleTrack` resolves its current entry at step 17, and
the empty-history `emptyTrack` contributes nothing. -/
theorem resolve_priority_spec_witness :
    resolveForStep [] none sampleTrack 17
      = (some [⟨60, 100, 0, 1⟩], 1)
    ∧ trackStepOutput [] none emptyTrack 5 = ([], []) := by
  constructor
  · have h := (resolve_priority_spec [] none sampleTrack 17).2.2.1 sampleEntry rfl rfl rfl
      (by decide)
    rw [h]
    rfl
  · exact ((resolve_priority_spec [] none emptyTrack 5).2.2.2 rfl).1

/-- C2: for a chaining track with non-empty history, the scheduler takes
`globalLocal = step mod (total steps)` and walks the history in order; the
walk selects exactly the entry whose accumulated step range contains
`globalLocal`, with local step `globalLocal - accumulatedBefore`; for a
3-entry history the boundary steps `b1*16 - 1`, `b1*16`, `(b1+b2)*16 - 1`
and `(b1+b2)*16` land in entries 1, 2, 2 and 3 respectively. -/
theorem progression_chain_spec (hist : List PatternHistoryEntry) (g : Nat) :
    (∀ (i : Nat) (e : PatternHistoryEntry), hist[i]? = some e →
        prefixSteps hist i ≤ g → g < prefixSteps hist (i + 1) →
        resolveChain hist g = (e.pattern, g - prefixSteps hist i))
    ∧ (g < totalProgressionSteps hist →
        ∃ (i : Nat) (e : PatternHistoryEntry), hist[i]? = some e ∧
          prefixSteps hist i ≤ g ∧ g < prefixSteps hist (i + 1) ∧
          resolveChain hist g = (e.pattern, g - prefixSteps hist i))
    ∧ (∀ (lm : List (String × LiveEditData)) (fs : Option String) (t : Track) (step : Nat),
        liveEditFor lm fs t = none → t.isProgressionChaining = true →
        0 < totalProgressionSteps t.patternHistory →
        resolveForStep lm fs t step
          = resolveChain t.patternHistory (step % totalProgressionSteps t.patternHistory))
    ∧ (∀ e1 e2 e3 : PatternHistoryEntry, hist = [e1, e2, e3] →
        0 < e1.bars → 0 < e2.bars → 0 < e3.bars →
        resolveChain hist (e1.bars.toNat * 16 - 1) = (e1.pattern, e1.bars.toNat * 16 - 1)
        ∧ resolveChain hist (e1.bars.toNat * 16) = (e2.pattern, 0)
        ∧ resolveChain hist ((e1.bars.toNat + e2.bars.toNat) * 16 - 1)
            = (e2.pattern, e2.bars.toNat * 16 - 1)
        ∧ resolveChain hist ((e1.bars.toNat + e2.bars.toNat) * 16) = (e3.pattern, 0)) := by
  refine ⟨fun i e he h1 h2 => resolveChain_at hist i g e he h1 h2, ?_, ?_, ?_⟩
  · intro hg
    obtain ⟨i, e, he, h1, h2⟩ := chain_entry_exists hist g hg
    exact ⟨i, e, he, h1, h2, resolveChain_at hist i g e he h1 h2⟩
  · intro lm fs t step hle hchain htot
    simp [resolveForStep, hle, hchain, htot]
  · rintro e1 e2 e3 rfl hb1 hb2 hb3
    have h1 : entrySteps e1 = e1.bars.toNat * 16 := entrySteps_of_pos hb1
    have h2 : entrySteps e2 = e2.bars.toNat * 16 := entrySteps_of_pos hb2
    have h3 : entrySteps e3 = e3.bars.toNat * 16 := entrySteps_of_pos hb3
    have hn1 : 1 ≤ e1.bars.toNat := by omega
    have hn2 : 1 ≤ e2.bars.toNat := by omega
    refine ⟨?_, ?_, ?_, ?_⟩
    · rw [resolveChain, if_pos (by omega)]
    · rw [resolveChain, if_neg (by omega)]
      rw [show e1.bars.toNat * 16 - entrySteps e1 = 0 by omega]
      rw [resolveChain, if_pos (by omega)]
    · rw [resolveChain, if_neg (by omega)]
      rw [show (e1.bars.toNat + e2.bars.toNat) * 16 - 1 - entrySteps e1
            = e2.bars.toNat * 16 - 1 by omega]
      rw [resolveChain, if_pos (by omega)]
    · rw [resolveChain, if_neg (by omega)]
      rw [show (e1.bars.toNat + e2.bars.toNat) * 16 - entrySteps e1
            = e2.bars.toNat * 16 by omega]
      rw [resolveChain, if_neg (by omega)]
      rw [show e2.bars.toNat * 16 - entrySteps e2 = 0 by omega]
      rw [resolveChain, if_pos (by omega)]

/-- Witness for C2 on a concrete 3-entry history with bar lengths 1, 2, 1:
step 16 (= `b1*16`) lands in entry 2 at local step 0 and step 48
(= `(b1+b2)*16`) lands in entry 3 at local step 0. -/
theorem progression_chain_spec_witness :
    resolveChain [sampleEntry, sampleEntryB, sampleEntry] 16 = (sampleEntryB.pattern, 0)
    ∧ resolveChain [sampleEntry, sampleEntryB, sampleEntry] 48 = (sampleEntry.pattern, 0) := by
  have h := (progression_chain_spec [sampleEntry, sampleEntryB, sampleEntry] 0).2.2.2
      sampleEntry sampleEntryB sampleEntry rfl (by decide) (by decide) (by decide)
  exact ⟨by simpa [sampleEntry] using h.2.1,
    by simpa [sampleEntry, sampleEntryB] using h.2.2.2⟩

/-- C5 counterexample: with a single track whose pattern history is empty
(the initial state of every fresh track), the loop length used by the code is
`Math.max(16, 0) = 16`, while the spec-side "maximum active-pattern length
across all non-chaining tracks" is `0` — the code imposes a 16-step floor
that the claim omits. -/
theorem loopEndStep_claim_counterexample :
    loopEndStep [] none [emptyTrack] = 16
    ∧ specMaxActivePatternLen [] none [emptyTrack] = 0
    ∧ loopEndStep [] none [emptyTrack] ≠ specMaxActivePatternLen [] none [emptyTrack] := by
  have h1 : loopEndStep [] none [emptyTrack] = 16 := rfl
  have h2 : specMaxActivePatternLen [] none [emptyTrack] = 0 := rfl
  exact ⟨h1, h2, by rw [h1, h2]; norm_num⟩

/-- C5 (amended): the shared loop length used for loop-boundary detection is
the maximum of 16 and the per-track active-pattern lengths (tracks without a
resolvable pattern contribute 0); a muted track still participates in the
maximum (the computation never reads the mute flag); and, pending switches
present, the boundary fires exactly when the processed absolute step modulo
the loop length equals the length minus 1. -/
theorem loopEndStep_spec (lm : List (String × LiveEditData)) (fs : Option String)
    (tracks : List Track) (b : Bool) :
    loopEndStep lm fs tracks = max 16 (specMaxActivePatternLen lm fs tracks)
    ∧ loopEndStep lm fs (tracks.map (fun t => { t with isMuted := b }))
        = loopEndStep lm fs tracks
    ∧ (∀ (s : EngineState) (m : List (String × Int)) (step : Nat),
        s.tracks = tracks → anyTrackChaining tracks = false →
        s.pending = some m → m.isEmpty = false →
        ((applyPendingAtBoundary lm fs s step).pending = some [] ↔
          (step : Int) % loopEndStep lm fs tracks = loopEndStep lm fs tracks - 1)) := by
  refine ⟨?_, ?_, ?_⟩
  · rw [loopEndStep, specMaxActivePatternLen]
    have h0 : (16 : Int) = max 16 0 := (max_eq_left (by norm_num)).symm
    nth_rewrite 1 [h0]
    exact foldl_max_max _ 16 0
  · rw [loopEndStep, loopEndStep, List.map_map]
    congr 1
  · intro s m step hs hp hpend hm
    have hL : (0 : Int) < loopEndStep lm fs tracks :=
      lt_of_lt_of_le (by norm_num) (loopEndStep_pos lm fs tracks)
    have hm' : m ≠ [] := by
      cases m
      · simp at hm
      · simp
    by_cases hb : (step : Int) % loopEndStep lm fs tracks = loopEndStep lm fs tracks - 1
    · simp [applyPendingAtBoundary, hs, hp, hpend, hL, hm, hb]
    · simp [applyPendingAtBoundary, hs, hp, hpend, hL, hm, hb, hm']

/-- Witness for C5 (amended) on a one-track state: the boundary fires at
step 15 of the 16-step shared loop. -/
theorem loopEndStep_spec_witness :
    (applyPendingAtBoundary [] none
        ⟨[sampleTrack], some [("t1", 1)], true, false, 0, 15, []⟩ 15).pending = some [] :=
  ((loopEndStep_spec [] none [sampleTrack] false).2.2
      ⟨[sampleTrack], some [("t1", 1)], true, false, 0, 15, []⟩ [("t1", 1)] 15
      rfl rfl rfl rfl).mpr (by norm_num [loopEndStep, trackLoopLen, liveEditFor, mapGet,
        listGetInt, sampleTrack, sampleEntry, effBars])

theorem mem_releasePhase_isNoteOff {active : ActiveNotesMap} {step : Nat} {m : MidiMsg}
    (h : m ∈ (releasePhase active step).1) : m.isNoteOff = true := by
  simp only [releasePhase, List.mem_flatten, List.mem_map] at h
  obtain ⟨l, ⟨p, _, rfl⟩, hm⟩ := h
  simp only [releaseMsgsFor, List.mem_map] at hm
  obtain ⟨n, _, rfl⟩ := hm
  rfl

theorem mem_trackStepOutput_not_noteOff {lm : List (String × LiveEditData)} {fs : Option String}
    {t : Track} {step : Nat} {m : MidiMsg}
    (h : m ∈ (trackStepOutput lm fs t step).1) : m.isNoteOff = false := by
  unfold trackStepOutput at h
  rcases hres : resolveForStep lm fs t step with ⟨pat, localStep⟩
  rw [hres] at h
  cases pat with
  | none => simp at h
  | some pattern =>
    simp only [List.mem_append] at h
    rcases h with h | h
    · simp only [noteTriggersForTrack, List.mem_map] at h
      obtain ⟨n, _, rfl⟩ := h
      rfl
    · unfold ccMsgsForTrack at h
      split at h
      · simp only [List.mem_flatten, List.mem_map] at h
        obtain ⟨l, ⟨lane, _, rfl⟩, hm⟩ := h
        cases lane with
        | none => simp at hm
        | some d =>
          simp only [ccMsgsForData, List.mem_map] at hm
          obtain ⟨e, _, rfl⟩ := hm
          rfl
      · simp at h

theorem foldl_trackStepFold_not_noteOff (lm : List (String × LiveEditData)) (fs : Option String)
    (step : Nat) (tracks : List Track) :
    ∀ acc : List MidiMsg × ActiveNotesMap, (∀ m ∈ acc.1, m.isNoteOff = false) →
      ∀ m ∈ (tracks.foldl (trackStepFold lm fs step) acc).1, m.isNoteOff = false := by
  induction tracks with
  | nil => intro acc hacc m hm; exact hacc m hm
  | cons t ts ih =>
    intro acc hacc m hm
    refine ih (trackStepFold lm fs step acc t) ?_ m hm
    intro m' hm'
    unfold trackStepFold at hm'
    split at hm'
    · exact hacc m' hm'
    · split at hm'
      · exact hacc m' hm'
      · simp only [List.mem_append] at hm'
        rcases hm' with h | h
        · exact hacc m' h
        · exact mem_trackStepOutput_not_noteOff h

/-- C6: within one MIDI scheduling step, every note-off for a sounding note
expiring on this step is sent (and the note dropped from the sounding set)
before any note-on is sent: in the outgoing message list every note-off
precedes every note-on, every expiring note gets a note-off, and the release
pass removes exactly the expiring notes from the sounding map. -/
theorem noteoffs_before_noteons (lm : List (String × LiveEditData)) (fs : Option String)
    (tracks : List Track) (active : ActiveNotesMap) (step : Nat) :
    (∀ (i j : Nat) (mi mj : MidiMsg),
        (processMidiStep lm fs tracks active step).1[i]? = some mi →
        (processMidiStep lm fs tracks active step).1[j]? = some mj →
        mi.isNoteOn = true → mj.isNoteOff = true → j < i)
    ∧ (∀ (tid : String) (ns : List ActiveMidiNote) (n : ActiveMidiNote),
        mapGet active tid = some ns → n ∈ ns → n.absoluteOffStep = (step : Int) →
        MidiMsg.noteOff n.channel n.note ∈ (processMidiStep lm fs tracks active step).1)
    ∧ (releasePhase active step).2
        = active.map (fun p =>
            (p.1, p.2.filter (fun n => !(n.absoluteOffStep == (step : Int))))) := by
  have hdecomp : (processMidiStep lm fs tracks active step).1
      = (releasePhase active step).1
        ++ (tracks.foldl (trackStepFold lm fs step) ([], (releasePhase active step).2)).1 := rfl
  have hons : ∀ m ∈ (tracks.foldl (trackStepFold lm fs step)
      ([], (releasePhase active step).2)).1, m.isNoteOff = false :=
    foldl_trackStepFold_not_noteOff lm fs step tracks _ (by intro m hm; simp at hm)
  refine ⟨?_, ?_, rfl⟩
  · intro i j mi mj hi hj hmi hmj
    rw [hdecomp] at hi hj
    have hjlt : j < (releasePhase active step).1.length := by
      by_contra hge
      push_neg at hge
      rw [List.getElem?_append_right hge] at hj
      have := hons mj (List.getElem?_mem hj)
      rw [this] at hmj
      exact Bool.false_ne_true hmj
    have hige : (releasePhase active step).1.length ≤ i := by
      by_contra hlt
      push_neg at hlt
      rw [List.getElem?_append_left hlt] at hi
      have hoff := mem_releasePhase_isNoteOff (List.getElem?_mem hi)
      cases mi <;> simp_all [MidiMsg.isNoteOn, MidiMsg.isNoteOff]
    omega
  · intro tid ns n hns hn hoff
    have hpair : (tid, ns) ∈ active := mapGet_mem hns
    have h1 : MidiMsg.noteOff n.channel n.note ∈ releaseMsgsFor ns step := by
      simp only [releaseMsgsFor, List.mem_map, List.mem_filter]
      exact ⟨n, ⟨hn, by simp [hoff]⟩, rfl⟩
    have h2 : MidiMsg.noteOff n.channel n.note ∈ (releasePhase active step).1 := by
      simp only [releasePhase, List.mem_flatten, List.mem_map]
      exact ⟨releaseMsgsFor ns step, ⟨(tid, ns), hpair, rfl⟩, h1⟩
    rw [hdecomp]
    exact List.mem_append_left _ h2

/-- Witness for C6 on a one-track state with one sounding note expiring at
step 0 and one note starting at step 0: the note-off (index 0) precedes the
note-on (index 1), and the expiring note's note-off is among the messages. -/
theorem noteoffs_before_noteons_witness :
    (0 : Nat) < 1
    ∧ MidiMsg.noteOff 1 60
        ∈ (processMidiStep [] none [sampleTrack] [("t1", [⟨60, 0, 1⟩])] 0).1 := by
  have hmsgs : (processMidiStep [] none [sampleTrack] [("t1", [⟨60, 0, 1⟩])] 0).1
      = [MidiMsg.noteOff 1 60, MidiMsg.noteOn 1 72 100] := by
    norm_num [processMidiStep, releasePhase, releaseMsgsFor, trackStepFold, trackStepOutput,
      resolveForStep, liveEditFor, mapGet, listGetInt, sampleTrack, sampleEntry, entrySteps,
      effBars, DEFAULT_BARS, noteTriggersForTrack, ccMsgsForTrack, beatSteps, finalPitch,
      clampMidi, addActiveNotes]
  constructor
  · exact (noteoffs_before_noteons [] none [sampleTrack] [("t1", [⟨60, 0, 1⟩])] 0).1
      1 0 (MidiMsg.noteOn 1 72 100) (MidiMsg.noteOff 1 60)
      (by rw [hmsgs]; rfl) (by rw [hmsgs]; rfl) rfl rfl
  · exact (noteoffs_before_noteons [] none [sampleTrack] [("t1", [⟨60, 0, 1⟩])] 0).2.1
      "t1" [⟨60, 0, 1⟩] ⟨60, 0, 1⟩ rfl (List.mem_singleton.mpr rfl) rfl

theorem applyPendingSwitches_patternHistory (tracks : List Track)
    (m : List (String × Int)) :
    (applyPendingSwitches tracks m).map Track.patternHistory
      = tracks.map Track.patternHistory := by
  rw [applyPendingSwitches, List.map_map]
  refine List.map_congr_left (fun t _ => ?_)
  cases h : mapGet m t.id
  · simp [h]
  · simp only [Function.comp_apply, h]
    split <;> rfl

theorem applyPendingAtBoundary_frame (lm : List (String × LiveEditData)) (fs : Option String)
    (s : EngineState) (p : Nat) :
    (applyPendingAtBoundary lm fs s p).absoluteStep = s.absoluteStep
    ∧ (applyPendingAtBoundary lm fs s p).isPlaying = s.isPlaying
    ∧ (applyPendingAtBoundary lm fs s p).isExternalClock = s.isExternalClock
    ∧ (applyPendingAtBoundary lm fs s p).clockTickCounter = s.clockTickCounter
    ∧ ((applyPendingAtBoundary lm fs s p).tracks).map Track.patternHistory
        = (s.tracks).map Track.patternHistory := by
  unfold applyPendingAtBoundary
  split
  · exact ⟨rfl, rfl, rfl, rfl, rfl⟩
  · split
    · dsimp only
      repeat' split
      all_goals
        first
        | exact ⟨rfl, rfl, rfl, rfl, rfl⟩
        | exact ⟨rfl, rfl, rfl, rfl, applyPendingSwitches_patternHistory _ _⟩
    · exact ⟨rfl, rfl, rfl, rfl, rfl⟩

/-- C9: for a melodic (synth) track with octave shift `s`, the pitch put into
every note-on sent at trigger time equals `clamp(0, 127, rawPitch + s*12)`;
and no transition of the MIDI engine (clock pulse with its scheduling step,
start, continue, stop) ever changes the note data stored in any track's
pattern history. -/
theorem octave_shift_spec (t : Track) (pattern : List MidiNote) (localStep step : Nat)
    (s : Int) (hty : t.type = TrackType.synth) (hs : t.octaveShift = some s) :
    (∀ m ∈ (noteTriggersForTrack t pattern localStep step).1,
       ∃ n ∈ pattern, beatSteps n.time = (localStep : Int)
         ∧ m = MidiMsg.noteOn t.channel (max 0 (min 127 (n.note + s * 12))) n.velocity)
    ∧ (∀ (lm : List (String × LiveEditData)) (fs : Option String) (st : EngineState)
         (msg : MidiInMsg),
        ((handleMidiMessage lm fs st msg).1).tracks.map Track.patternHistory
          = st.tracks.map Track.patternHistory) := by
  constructor
  · intro m hm
    simp only [noteTriggersForTrack, List.mem_map, List.mem_filter] at hm
    obtain ⟨n, ⟨hn, hfilter⟩, rfl⟩ := hm
    refine ⟨n, hn, by simpa using hfilter, ?_⟩
    simp [finalPitch, hty, hs, clampMidi]
  · intro lm fs st msg
    cases msg with
    | clockPulse =>
      show ((onClockPulse lm fs st).1).tracks.map Track.patternHistory = _
      unfold onClockPulse
      dsimp only
      split
      · split
        · exact (applyPendingAtBoundary_frame lm fs _ _).2.2.2.2
        · rfl
      · rfl
    | startMsg => rfl
    | continueMsg => rfl
    | stopMsg => rfl

/-- Witness for C9: `sampleTrack` (octave shift +1) triggers raw pitch 60 as
72, and a stop message leaves its stored history untouched. -/
theorem octave_shift_spec_witness :
    (∃ n ∈ [(⟨60, 100, 0, 1⟩ : MidiNote)], beatSteps n.time = ((0 : Nat) : Int)
       ∧ MidiMsg.noteOn 1 72 100
           = MidiMsg.noteOn sampleTrack.channel (max 0 (min 127 (n.note + 1 * 12))) n.velocity)
    ∧ ((handleMidiMessage [] none sampleEngine MidiInMsg.stopMsg).1).tracks.map
          Track.patternHistory
        = sampleEngine.tracks.map Track.patternHistory := by
  constructor
  · refine (octave_shift_spec sampleTrack [⟨60, 100, 0, 1⟩] 0 0 1 rfl rfl).1
      (MidiMsg.noteOn 1 72 100) ?_
    norm_num [noteTriggersForTrack, beatSteps, finalPitch, sampleTrack, clampMidi]
  · exact (octave_shift_spec sampleTrack [] 0 0 1 rfl rfl).2 [] none sampleEngine
      MidiInMsg.stopMsg

theorem handleSwitch_playing (s : EngineState) (T : String) (I : Int)
    (hp : s.isPlaying = true) (hc : anyTrackChaining s.tracks = false) :
    handleSwitchPatternHistory s T I
      = { s with pending := some (mapSet (s.pending.getD []) T I) } := by
  unfold handleSwitchPatternHistory
  rw [hp, hc]
  simp

theorem applyPendingAtBoundary_miss (lm : List (String × LiveEditData)) (fs : Option String)
    (s : EngineState) (p : Nat)
    (hb : (p : Int) % loopEndStep lm fs s.tracks ≠ loopEndStep lm fs s.tracks - 1) :
    applyPendingAtBoundary lm fs s p = s := by
  have hL : (0 : Int) < loopEndStep lm fs s.tracks :=
    lt_of_lt_of_le (by norm_num) (loopEndStep_pos lm fs s.tracks)
  unfold applyPendingAtBoundary
  split
  · rfl
  · split
    · dsimp only
      rw [if_pos hL, if_neg]
      rintro ⟨-, h2, -⟩
      exact hb h2
    · rfl

theorem applyPendingAtBoundary_hit (lm : List (String × LiveEditData)) (fs : Option String)
    (s : EngineState) (p : Nat) (m : List (String × Int))
    (hc : anyTrackChaining s.tracks = false) (hp : s.pending = some m)
    (hm : m.isEmpty = false)
    (hb : (p : Int) % loopEndStep lm fs s.tracks = loopEndStep lm fs s.tracks - 1) :
    applyPendingAtBoundary lm fs s p
      = { s with
          tracks := applyPendingSwitches s.tracks m
          pending := some []
          activeNotes := s.activeNotes.filter
            (fun q => !(switchedTrackIds s.tracks m).contains q.1) } := by
  have hL : (0 : Int) < loopEndStep lm fs s.tracks :=
    lt_of_lt_of_le (by norm_num) (loopEndStep_pos lm fs s.tracks)
  unfold applyPendingAtBoundary
  rw [if_neg (by simp [hc])]
  simp only [hp]
  rw [if_pos hL, if_pos ⟨hL, hb, hm⟩]

theorem applyPendingSwitches_getElem (tracks : List Track) (m : List (String × Int))
    (k : Nat) (t : Track) (I : Int) (hk : tracks[k]? = some t)
    (hget : mapGet m t.id = some I) (h0 : 0 ≤ I)
    (hlen : I < (t.patternHistory.length : Int)) :
    (applyPendingSwitches tracks m)[k]?
      = some { t with currentPatternIndex := I, error := none } := by
  rw [applyPendingSwitches, List.getElem?_map, hk]
  simp only [Option.map_some']
  rw [hget]
  dsimp only
  rw [if_pos ⟨h0, hlen⟩]

/-- C4: while playing with no chaining track, a switch request is stored in
the pending map and does not touch the tracks; the scheduler leaves tracks
and the pending map alone on every step whose shared-loop local step is not
the last one; exactly at the last step it applies the pending switches and
clears the map in the same transition; a later request for the same track
overwrites the earlier one; and when not playing (or some track chains) the
request is applied immediately. -/
theorem deferred_switch_spec (lm : List (String × LiveEditData)) (fs : Option String)
    (s : EngineState) (T : String) (I : Int) :
    (s.isPlaying = true → anyTrackChaining s.tracks = false →
       (handleSwitchPatternHistory s T I).tracks = s.tracks
       ∧ (handleSwitchPatternHistory s T I).pending = some (mapSet (s.pending.getD []) T I)
       ∧ mapGet ((handleSwitchPatternHistory s T I).pending.getD []) T = some I)
    ∧ (∀ I2 : Int, s.isPlaying = true → anyTrackChaining s.tracks = false →
        mapGet ((handleSwitchPatternHistory (handleSwitchPatternHistory s T I) T I2).pending.getD
          []) T = some I2)
    ∧ (anyTrackChaining s.tracks = false →
        (s.absoluteStep : Int) % loopEndStep lm fs s.tracks ≠ loopEndStep lm fs s.tracks - 1 →
        (schedulerStep lm fs s).tracks = s.tracks
        ∧ (schedulerStep lm fs s).pending = s.pending)
    ∧ (∀ m : List (String × Int), anyTrackChaining s.tracks = false → s.pending = some m →
        m.isEmpty = false →
        (s.absoluteStep : Int) % loopEndStep lm fs s.tracks = loopEndStep lm fs s.tracks - 1 →
        (schedulerStep lm fs s).pending = some []
        ∧ (schedulerStep lm fs s).tracks = applyPendingSwitches s.tracks m
        ∧ (∀ (k : Nat) (t : Track), s.tracks[k]? = some t → mapGet m t.id = some I →
            0 ≤ I → I < (t.patternHistory.length : Int) →
            (schedulerStep lm fs s).tracks[k]?
              = some { t with currentPatternIndex := I, error := none }))
    ∧ (s.isPlaying = false ∨ anyTrackChaining s.tracks = true →
        ∀ (k : Nat) (t : Track), s.tracks[k]? = some t → t.id = T → 0 ≤ I →
          I < (t.patternHistory.length : Int) →
          (handleSwitchPatternHistory s T I).tracks[k]?
            = some { t with currentPatternIndex := I, error := none }) := by
  refine ⟨?_, ?_, ?_, ?_, ?_⟩
  · intro hp hc
    rw [handleSwitch_playing s T I hp hc]
    exact ⟨rfl, rfl, mapGet_mapSet_self _ _ _⟩
  · intro I2 hp hc
    rw [handleSwitch_playing s T I hp hc]
    rw [handleSwitch_playing
      { s with pending := some (mapSet (s.pending.getD []) T I) } T I2 hp hc]
    exact mapGet_mapSet_self _ _ _
  · intro hc hb
    have hmiss := applyPendingAtBoundary_miss lm fs
      { s with absoluteStep := s.absoluteStep + 1,
               activeNotes := (processMidiStep lm fs s.tracks s.activeNotes s.absoluteStep).2 }
      s.absoluteStep hb
    unfold schedulerStep
    dsimp only
    rw [hmiss]
    exact ⟨rfl, rfl⟩
  · intro m hc hpend hm hb
    have hhit := applyPendingAtBoundary_hit lm fs
      { s with absoluteStep := s.absoluteStep + 1,
               activeNotes := (processMidiStep lm fs s.tracks s.activeNotes s.absoluteStep).2 }
      s.absoluteStep m hc hpend hm hb
    unfold schedulerStep
    dsimp only
    rw [hhit]
    refine ⟨rfl, rfl, ?_⟩
    intro k t hk hget h0 hlen
    exact applyPendingSwitches_getElem s.tracks m k t I hk hget h0 hlen
  · intro hnp k t hk htid h0 hlen
    have hcond : (s.isPlaying && !anyTrackChaining s.tracks) = false := by
      rcases hnp with h | h <;> simp [h]
    unfold handleSwitchPatternHistory
    rw [if_neg (by simp [hcond])]
    rw [show ({ s with
          tracks := s.tracks.map (fun t =>
            if t.id = T ∧ 0 ≤ I ∧ I < t.patternHistory.length then
              { t with currentPatternIndex := I, error := none }
            else t)
          pending :=
            match s.pending with
            | none => none
            | some m =>
              let m' := mapDelete m T
              if m'.isEmpty then none else some m' } : EngineState).tracks
        = s.tracks.map (fun t =>
            if t.id = T ∧ 0 ≤ I ∧ I < t.patternHistory.length then
              { t with currentPatternIndex := I, error := none }
            else t) from rfl]
    rw [List.getElem?_map, hk]
    simp only [Option.map_some']
    rw [if_pos ⟨htid, h0, hlen⟩]

/-- Witness for C4: a switch request on the playing `sampleEngine` is stored
without touching the tracks, and a state at absolute step 15 (the last step
of the 16-step shared loop) with that pending request applies it and clears
the pending map. -/
theorem deferred_switch_spec_witness :
    (handleSwitchPatternHistory sampleEngine "t1" 1).tracks = sampleEngine.tracks
    ∧ mapGet ((handleSwitchPatternHistory sampleEngine "t1" 1).pending.getD []) "t1" = some 1
    ∧ (schedulerStep [] none
        { sampleEngine with pending := some [("t1", 1)], absoluteStep := 15 }).pending = some []
    ∧ (schedulerStep [] none
        { sampleEngine with pending := some [("t1", 1)], absoluteStep := 15 }).tracks[0]?
        = some { sampleTrack with currentPatternIndex := 1, error := none } := by
  have hb : ((15 : Nat) : Int) % loopEndStep [] none [sampleTrack]
      = loopEndStep [] none [sampleTrack] - 1 := by
    norm_num [loopEndStep, trackLoopLen, liveEditFor, mapGet, listGetInt, sampleTrack,
      sampleEntry, effBars]
  have h4 := (deferred_switch_spec [] none
      { sampleEngine with pending := some [("t1", 1)], absoluteStep := 15 } "t1" 1).2.2.2.1
      [("t1", 1)] rfl rfl rfl hb
  refine ⟨((deferred_switch_spec [] none sampleEngine "t1" 1).1 rfl rfl).1,
    ((deferred_switch_spec [] none sampleEngine "t1" 1).1 rfl rfl).2.2, h4.1, ?_⟩
  exact h4.2.2 0 sampleTrack rfl rfl (by norm_num) (by norm_num [sampleTrack])

/-- C8: in external clock mode (24 PPQN), exactly one step is emitted on
every 6th clock pulse while playing; a start (0xFA) message resets the
absolute step counter to 0, flushes the sounding notes, begins playback, and
immediately emits step 0; continue (0xFB) resumes playback changing nothing
else; stop (0xFC) halts playback, flushes all sounding notes, resets the
tick counter and drops the pending map. -/
theorem external_clock_spec (lm : List (String × LiveEditData)) (fs : Option String)
    (s : EngineState) :
    (s.isPlaying = true →
       (onClockPulse lm fs s).2
         = (if (s.clockTickCounter + 1) % 6 = 0 then [s.absoluteStep] else [])
       ∧ ((s.clockTickCounter + 1) % 6 = 0 →
           ((onClockPulse lm fs s).1).absoluteStep = s.absoluteStep + 1)
       ∧ ((s.clockTickCounter + 1) % 6 ≠ 0 →
           (onClockPulse lm fs s).1
             = { s with isExternalClock := true,
                        clockTickCounter := s.clockTickCounter + 1 }))
    ∧ ((onStart lm fs s).2 = [0]
       ∧ ((onStart lm fs s).1).isPlaying = true
       ∧ ((onStart lm fs s).1).isExternalClock = true
       ∧ ((onStart lm fs s).1).absoluteStep = 1
       ∧ ((onStart lm fs s).1).clockTickCounter = 0
       ∧ ((onStart lm fs s).1).activeNotes = (processMidiStep lm fs s.tracks [] 0).2)
    ∧ ((onContinue s).1 = { s with isExternalClock := true, isPlaying := true }
       ∧ (onContinue s).2 = [])
    ∧ ((onStop s).1
         = { s with
             isExternalClock := false
             isPlaying := false
             activeNotes := []
             clockTickCounter := 0
             pending := none }
       ∧ (onStop s).2 = []) := by
  refine ⟨?_, ⟨rfl, rfl, rfl, rfl, rfl, rfl⟩, ⟨rfl, rfl⟩, ⟨rfl, rfl⟩⟩
  intro hp
  unfold onClockPulse
  dsimp only
  by_cases h6 : (s.clockTickCounter + 1) % 6 = 0
  · rw [if_pos h6, if_pos h6, if_pos hp]
    refine ⟨rfl, ?_, fun h => absurd h6 h⟩
    intro _
    unfold schedulerStep
    dsimp only
    exact (applyPendingAtBoundary_frame lm fs _ _).1
  · rw [if_neg h6, if_neg h6]
    exact ⟨rfl, fun h => absurd h h6, fun _ => rfl⟩

/-- Witness for C8: the 6th pulse on a playing engine (tick counter 5) emits
exactly step 0 and advances the absolute step counter to 1. -/
theorem external_clock_spec_witness :
    (onClockPulse [] none { sampleEngine with clockTickCounter := 5 }).2 = [0]
    ∧ ((onClockPulse [] none { sampleEngine with clockTickCounter := 5 }).1).absoluteStep
        = 1 := by
  have h := (external_clock_spec [] none { sampleEngine with clockTickCounter := 5 }).1 rfl
  refine ⟨?_, ?_⟩
  · rw [h.1]
    norm_num [sampleEngine]
  · have h2 := h.2.1 (by norm_num)
    simpa [sampleEngine] using h2

end GeMidi
